import Mathlib

/-!
# Shallow embedding of the `shim` terminal session controller

This file embeds the core of `src/main.rs` (data model, cursor model, input
dispatcher `handle_key`, reducer `update`) and the deterministic part of
`src/shell.rs` (`run`), and proves the specification claims about them.

Conventions of the embedding:
* Rust `String` is modelled as `List Char`; `.len()` is character count
  (the source only ever indexes and measures the same strings it builds,
  so byte/char indexing agree on the ASCII inputs the claims exercise).
* `u16` / `usize` arithmetic uses `Nat`. Saturating operations are
  translated explicitly (`min (x + 1) 65535`, truncated subtraction), and
  the explicit truncating casts `as u16` of the source become `% 65536`,
  as do `u16` additions that would wrap in a release build.
* Panicking operations (`unwrap`, the explicit `panic!` branch, the bounds
  check of `String::insert`) make the reducer return `none`; a `some`
  result is a normal return.
* The child process spawned on `Submit` is external input: it is modelled
  by an oracle `SpawnOracle` (see its doc comment).
-/

namespace Shim

/-- `enum Cursor` of `main.rs`: either a column on the command line or a
column/row position in the output pane. -/
inductive Cursor where
  | CommandLine (x : Nat)
  | OutputBuffer (x : Nat) (y : Nat)
deriving DecidableEq

/-- `Cursor::left`: saturating decrement of the x column, variant preserving. -/
def Cursor.left : Cursor → Cursor
  | .CommandLine x => .CommandLine (x - 1)
  | .OutputBuffer x y => .OutputBuffer (x - 1) y

/-- `Cursor::right`: saturating (u16) increment of the x column, variant
preserving. -/
def Cursor.right : Cursor → Cursor
  | .CommandLine x => .CommandLine (min (x + 1) 65535)
  | .OutputBuffer x y => .OutputBuffer (min (x + 1) 65535) y

/-- `Cursor::right_capped`: on `CommandLine`, saturating increment capped at
`max`; on `OutputBuffer`, the source performs a plain saturating increment
and ignores `max`. -/
def Cursor.right_capped : Cursor → Nat → Cursor
  | .CommandLine x, max => .CommandLine (min (min (x + 1) 65535) max)
  | .OutputBuffer x y, _ => .OutputBuffer (min (x + 1) 65535) y

/-- Whether the cursor is the `CommandLine` variant. -/
def Cursor.isCommandLine : Cursor → Bool
  | .CommandLine _ => true
  | .OutputBuffer _ _ => false

/-- The x column of either variant (the `let x = match cursor` of the
`InsertBefore` / `InsertAfter` arms). -/
def Cursor.xcol : Cursor → Nat
  | .CommandLine x => x
  | .OutputBuffer x _ => x

/-- `enum Mode` of `main.rs`. -/
inductive Mode where
  | Insert
  | Normal
deriving DecidableEq

/-- `enum RunningState` of `main.rs`. -/
inductive RunningState where
  | Running
  | Done
deriving DecidableEq

/-- `struct Output` of `main.rs`: one captured command output.
`scroll` is `(vertical, horizontal)` like the source tuple. -/
structure Output where
  command : List Char
  stdout : List Char
  scroll : Nat × Nat
deriving DecidableEq

/-- `struct Model` of `main.rs`: the whole session state. -/
structure Model where
  cursor : Cursor
  mode : Mode
  running_state : RunningState
  outputs : List Output
  previous_commands : List (List Char)
  viewing_output : Nat
  current_command : List Char
  viewing_command : Option Nat
  height : Nat
deriving DecidableEq

/-- `Model::default()`: mode Insert, cursor `CommandLine(0)`, everything
else empty / zero. -/
def initModel : Model :=
  { cursor := .CommandLine 0
    mode := .Insert
    running_state := .Running
    outputs := []
    previous_commands := []
    viewing_output := 0
    current_command := []
    viewing_command := none
    height := 0 }

/-- `Model::get_command_len`: length of the displayed command text (the
peeked history entry when `viewing_command` hits, else the live buffer),
with the source's truncating `as u16` cast. -/
def Model.get_command_len (m : Model) : Nat :=
  match m.viewing_command.bind (fun i => m.previous_commands.get? i) with
  | some s => s.length % 65536
  | none => m.current_command.length % 65536

/-- `enum Message` of `main.rs`: the abstract intents. -/
inductive Message where
  | Down
  | Up
  | Submit
  | Quit
  | NextOutput
  | PreviousOutput
  | WriteCommandChar (c : Char)
  | Normal
  | InsertBefore
  | InsertAfter
  | Backspace
  | OutCommand
  | InCommand
  | ScrollDown
  | ScrollUp
  | Left
  | Right
  | InsertBeforeLine
  | InsertAfterLine
deriving DecidableEq

/-- `Message::is_editing_command`: the buffer-editing intents. -/
def Message.is_editing_command : Message → Bool
  | .Submit => true
  | .WriteCommandChar _ => true
  | .Backspace => true
  | _ => false

/-- Split a character list at every newline (`n + 1` pieces for `n`
separators), the building block of `rustLines`. -/
def splitOnNl : List Char → List (List Char)
  | [] => [[]]
  | c :: rest =>
    if c = '\n' then [] :: splitOnNl rest
    else
      match splitOnNl rest with
      | [] => [[c]]
      | l :: ls => (c :: l) :: ls

/-- Strip one trailing carriage return, as Rust `str::lines` does per line. -/
def stripCr (l : List Char) : List Char :=
  if l.getLast? = some '\r' then l.dropLast else l

/-- Rust `str::lines`: split on newlines, drop the piece after a trailing
newline, strip a trailing carriage return from each line; the empty string
has no lines. -/
def rustLines (s : List Char) : List (List Char) :=
  if s = [] then []
  else
    (if s.getLast? = some '\n' then (splitOnNl s).dropLast else splitOnNl s).map stripCr

/-- Worker for `split_whitespace`: `cur` is the current word, reversed. -/
def splitWsGo (cur : List Char) : List Char → List (List Char)
  | [] => if cur = [] then [] else [cur.reverse]
  | c :: rest =>
    if c.isWhitespace then
      if cur = [] then splitWsGo [] rest else cur.reverse :: splitWsGo [] rest
    else splitWsGo (c :: cur) rest

/-- Rust `str::split_whitespace`: the non-empty maximal runs of
non-whitespace characters. -/
def split_whitespace (s : List Char) : List (List Char) :=
  splitWsGo [] s

/-- Oracle for the external effect of `Command::new(program).args(args)
.output().ok()` composed with `String::from_utf8(output.stdout)`:
`none` models a spawn failure (`run` returning `None` from `.ok()`),
`some none` models captured bytes that are not valid UTF-8, and
`some (some s)` models successfully captured and decoded text `s`.
The decode step is folded into the oracle because the captured bytes are
themselves external data. -/
def SpawnOracle : Type :=
  List Char → List (List Char) → Option (Option (List Char))

/-- `shell::run` (with the UTF-8 decode of the `Submit` arm folded into the
oracle): split the command line on whitespace; with no token, return `None`
without consulting the oracle; otherwise the first token is the program and
the rest are arguments. -/
def run (sd : SpawnOracle) (command : List Char) : Option (Option (List Char)) :=
  match split_whitespace command with
  | [] => none
  | program :: args => sd program args

/-- The pre-step at the top of `update` (`main.rs` lines 280-289): a
buffer-editing intent first materializes an active history peek into the
live buffer and clears the peek; other intents leave the model untouched. -/
def preStep (m : Model) (msg : Message) : Model :=
  match msg.is_editing_command with
  | true =>
    let m1 :=
      match m.viewing_command with
      | some curr =>
        { m with current_command := (m.previous_commands.get? curr).getD [] }
      | none => m
    { m1 with viewing_command := none }
  | false => m

/-- The `max` computation of the `Message::Right` arm. On the command line it
is the displayed text length (missing peeked entry counts as 0). In the
output pane, a missing viewed output yields 0 (`unwrap_or(0)`), but a
missing line inside an existing output hits the source's `.unwrap()`:
modelled as `none` (panic). -/
def rightMax (m : Model) : Option Nat :=
  match m.cursor with
  | .CommandLine _ =>
    some (match m.viewing_command with
      | some i => ((m.previous_commands.get? i).map List.length).getD 0
      | none => m.current_command.length)
  | .OutputBuffer _ y =>
    match m.outputs.get? m.viewing_output with
    | some o => ((rustLines o.stdout).get? ((y + o.scroll.1) % 65536)).map List.length
    | none => some 0

/-- Rust `String::insert` restricted to in-bounds indices (the caller checks
the bound and treats the out-of-bounds case as a panic). -/
def insertAt (l : List Char) (i : Nat) (c : Char) : List Char :=
  l.take i ++ c :: l.drop i

/-- The `match msg` body of `update`, applied after `preStep`. Returns
`none` on a panic (the explicit `panic!` of `WriteCommandChar` in the
output pane, the `.unwrap()` of `Right`, or an out-of-bounds
`String::insert`), and otherwise `some` of the new model paired with the
reducer's returned follow-up message. -/
def applyMessage (sd : SpawnOracle) (m : Model) (msg : Message) :
    Option (Model × Option Message) :=
  match msg with
  | .Down =>
    some ((match m.cursor with
      | .CommandLine _ => m
      | .OutputBuffer x y =>
        if (y + 1) % 65536 ≥ m.height then { m with cursor := .CommandLine x }
        else { m with cursor := .OutputBuffer x ((y + 1) % 65536) }), none)
  | .Up =>
    some ((match m.cursor with
      | .CommandLine x => { m with cursor := .OutputBuffer x (m.height - 1) }
      | .OutputBuffer x y => { m with cursor := .OutputBuffer x (y - 1) }), none)
  | .Left => some ({ m with cursor := m.cursor.left }, none)
  | .Right =>
    (rightMax m).map (fun mx => ({ m with cursor := m.cursor.right_capped (mx % 65536) }, none))
  | .Submit =>
    let m1 :=
      match run sd m.current_command with
      | some (some s) =>
        let o : Output :=
          { command := m.current_command
            stdout := s
            scroll := ((rustLines s).length % 65536 - m.height, 0) }
        let outs := m.outputs ++ [o]
        { m with outputs := outs, viewing_output := outs.length - 1 }
      | _ => m
    some ({ m1 with
            previous_commands := m1.previous_commands ++ [m1.current_command]
            viewing_command := none
            current_command := []
            cursor := .CommandLine 0 }, none)
  | .Quit => some ({ m with running_state := .Done }, none)
  | .NextOutput =>
    some ((if m.outputs = [] then { m with viewing_output := 0 }
      else { m with
             viewing_output := min (m.outputs.length - 1)
               (min (m.viewing_output + 1) 18446744073709551615) }), none)
  | .PreviousOutput =>
    some ((if m.outputs = [] then { m with viewing_output := 0 }
      else { m with viewing_output := m.viewing_output - 1 }), none)
  | .WriteCommandChar c =>
    match m.cursor with
    | .CommandLine x =>
      if x ≤ m.current_command.length then
        some ({ m with
                current_command := insertAt m.current_command x c
                cursor := (Cursor.CommandLine x).right }, none)
      else none
    | .OutputBuffer _ _ => none
  | .Normal => some ({ m with mode := .Normal }, none)
  | .InsertBefore =>
    some ({ m with
            mode := .Insert
            cursor := .CommandLine (min m.get_command_len m.cursor.xcol) }, none)
  | .InsertAfter =>
    some ({ m with
            mode := .Insert
            cursor := .CommandLine (min m.get_command_len ((m.cursor.xcol + 1) % 65536)) }, none)
  | .Backspace =>
    some ({ m with
            cursor := m.cursor.left
            current_command := m.current_command.dropLast }, none)
  | .OutCommand =>
    some ((match m.viewing_command with
      | some curr => { m with viewing_command := some (curr - 1) }
      | none =>
        if m.previous_commands = [] then m
        else { m with viewing_command := some (m.previous_commands.length - 1) }), none)
  | .InCommand =>
    some ((match m.viewing_command with
      | some curr =>
        if curr ≥ m.previous_commands.length - 1 then { m with viewing_command := none }
        else { m with viewing_command := some (curr + 1) }
      | none => m), none)
  | .ScrollDown =>
    some ((match m.outputs.get? m.viewing_output with
      | some o =>
        { m with outputs :=
            m.outputs.set m.viewing_output { o with scroll := (min (o.scroll.1 + 10) 65535, o.scroll.2) } }
      | none => m), none)
  | .ScrollUp =>
    some ((match m.outputs.get? m.viewing_output with
      | some o =>
        { m with outputs :=
            m.outputs.set m.viewing_output { o with scroll := (o.scroll.1 - 10, o.scroll.2) } }
      | none => m), none)
  | .InsertBeforeLine =>
    some ({ m with mode := .Insert, cursor := .CommandLine 0 }, none)
  | .InsertAfterLine =>
    some ({ m with mode := .Insert, cursor := .CommandLine m.get_command_len }, none)

/-- `update` of `main.rs`: the pre-step followed by the per-intent body. -/
def update (sd : SpawnOracle) (m : Model) (msg : Message) :
    Option (Model × Option Message) :=
  applyMessage sd (preStep m msg) msg

/-- The key codes the dispatcher distinguishes; every other key is `Other`. -/
inductive KeyCode where
  | Char (c : Char)
  | Esc
  | BackspaceKey
  | Enter
  | Other
deriving DecidableEq

/-- A key press: its code and whether CONTROL is held. -/
structure KeyEvent where
  code : KeyCode
  ctrl : Bool
deriving DecidableEq

/-- `handle_key` of `main.rs`: the pure mode-dependent binding tables. -/
def handle_key (m : Model) (k : KeyEvent) : Option Message :=
  match m.mode with
  | .Insert =>
    match k.code with
    | .Char c => if c = 'd' ∧ k.ctrl = true then some .Quit else some (.WriteCommandChar c)
    | .Esc => some .Normal
    | .BackspaceKey => some .Backspace
    | .Enter => some .Submit
    | .Other => none
  | .Normal =>
    match k.code with
    | .Char c =>
      if k.ctrl = true ∧ c = 'n' then some .NextOutput
      else if k.ctrl = true ∧ c = 'p' then some .PreviousOutput
      else if k.ctrl = true ∧ c = 'i' then some .InCommand
      else if k.ctrl = true ∧ c = 'o' then some .OutCommand
      else if k.ctrl = true ∧ c = 'u' then some .ScrollUp
      else if k.ctrl = true ∧ c = 'd' then some .ScrollDown
      else if c = 'i' then some .InsertBefore
      else if c = 'a' then some .InsertAfter
      else if c = 'I' then some .InsertBeforeLine
      else if c = 'A' then some .InsertAfterLine
      else if c = 'h' then some .Left
      else if c = 'j' then some .Down
      else if c = 'k' then some .Up
      else if c = 'l' then some .Right
      else none
    | _ => none

/-- The render step's only mutation of the model: it recomputes `height`
from the layout before the next key is handled. -/
def setHeight (m : Model) (h : Nat) : Model :=
  { m with height := h }

/-- The states reachable from `Model::default()` by the main loop: each
iteration renders (setting `height` to some layout value), dispatches one
key through `handle_key`, and applies the resulting intent through `update`
(with an arbitrary executor behavior `sd`), keeping the new model when the
reducer returns normally. -/
inductive Reachable : Model → Prop where
  | init : Reachable initModel
  | step {m m' : Model} {nxt : Option Message} (h : Nat) (k : KeyEvent)
      (msg : Message) (sd : SpawnOracle) :
      Reachable m →
      handle_key (setHeight m h) k = some msg →
      update sd (setHeight m h) msg = some (m', nxt) →
      Reachable m'

/-- The command text that the pre-step leaves in the live buffer for a
buffer-editing intent: the peeked entry's text when a peek is active
(the empty string for an out-of-range peek), else the live buffer. -/
def submittedCommand (m : Model) : List Char :=
  match m.viewing_command with
  | some i => (m.previous_commands.get? i).getD []
  | none => m.current_command

/-- An executor oracle whose every spawn fails. -/
def sd0 : SpawnOracle := fun _ _ => none

/-- State used to exercise the Backspace divergence: live buffer `ab`,
cursor between the two characters. -/
def c1model : Model :=
  { initModel with current_command := ['a', 'b'], cursor := .CommandLine 1 }

/-- An output with empty stdout (a successfully run command that printed
nothing), so its text has no line at row 0. -/
def c2output : Output :=
  { command := ['c'], stdout := [], scroll := (0, 0) }

/-- State used to exercise the Right-on-missing-line panic: viewing
`c2output`, cursor on the first row of the output pane. -/
def c2model : Model :=
  { initModel with
    mode := .Normal
    outputs := [c2output]
    viewing_output := 0
    cursor := .OutputBuffer 0 0 }

/-- State with an active history peek at entry 0 (`ls`) over a distinct
live buffer (`x`). -/
def c5model : Model :=
  { initModel with
    previous_commands := [['l', 's']]
    viewing_command := some 0
    current_command := ['x'] }

/-- State peeking at the newest (only) history entry. -/
def c9model : Model :=
  { initModel with previous_commands := [['a']], viewing_command := some 0 }

/-- The state after pressing Enter in the initial state (submitting the
empty command with a failing executor): one (empty) history entry. -/
def s1 : Model := { initModel with previous_commands := [[]] }

/-- The state after then pressing Escape: Normal mode. -/
def s2 : Model := { s1 with mode := .Normal }

/-- The state after then pressing Ctrl-O (HistoryOlder): peeking at
history entry 0. -/
def s3 : Model := { s2 with viewing_command := some 0 }

section PreStepLemmas

variable (m : Model) (msg : Message)

lemma preStep_mode : (preStep m msg).mode = m.mode := by
  unfold preStep
  cases msg.is_editing_command <;> cases m.viewing_command <;> rfl

lemma preStep_cursor : (preStep m msg).cursor = m.cursor := by
  unfold preStep
  cases msg.is_editing_command <;> cases m.viewing_command <;> rfl

lemma preStep_outputs : (preStep m msg).outputs = m.outputs := by
  unfold preStep
  cases msg.is_editing_command <;> cases m.viewing_command <;> rfl

lemma preStep_previous_commands :
    (preStep m msg).previous_commands = m.previous_commands := by
  unfold preStep
  cases msg.is_editing_command <;> cases m.viewing_command <;> rfl

lemma preStep_viewing_output : (preStep m msg).viewing_output = m.viewing_output := by
  unfold preStep
  cases msg.is_editing_command <;> cases m.viewing_command <;> rfl

lemma preStep_height : (preStep m msg).height = m.height := by
  unfold preStep
  cases msg.is_editing_command <;> cases m.viewing_command <;> rfl

lemma preStep_running_state :
    (preStep m msg).running_state = m.running_state := by
  unfold preStep
  cases msg.is_editing_command <;> cases m.viewing_command <;> rfl

lemma preStep_not_editing (hne : msg.is_editing_command = false) :
    preStep m msg = m := by
  unfold preStep
  rw [hne]

lemma preStep_cc_editing (he : msg.is_editing_command = true) :
    (preStep m msg).current_command = submittedCommand m := by
  unfold preStep submittedCommand
  rw [he]
  cases m.viewing_command <;> rfl

lemma preStep_vc_editing (he : msg.is_editing_command = true) :
    (preStep m msg).viewing_command = none := by
  unfold preStep
  rw [he]

lemma preStep_vc_not_editing (hne : msg.is_editing_command = false) :
    (preStep m msg).viewing_command = m.viewing_command := by
  rw [preStep_not_editing m msg hne]

lemma preStep_editing (he : msg.is_editing_command = true) :
    preStep m msg =
      { m with current_command := submittedCommand m, viewing_command := none } := by
  unfold preStep submittedCommand
  rw [he]
  cases m.viewing_command <;> rfl

end PreStepLemmas

section CursorVariantLemmas

variable (c : Cursor)

lemma isCommandLine_left : c.left.isCommandLine = c.isCommandLine := by
  cases c <;> rfl

lemma isCommandLine_right : c.right.isCommandLine = c.isCommandLine := by
  cases c <;> rfl

lemma isCommandLine_right_capped (mx : Nat) :
    (c.right_capped mx).isCommandLine = c.isCommandLine := by
  cases c <;> rfl

end CursorVariantLemmas

section ApplyMessageEquations

variable (sd : SpawnOracle) (m : Model)

lemma update_eq (msg : Message) :
    update sd m msg = applyMessage sd (preStep m msg) msg := rfl

lemma applyMessage_down :
    applyMessage sd m .Down =
      some ((match m.cursor with
        | .CommandLine _ => m
        | .OutputBuffer x y =>
          if (y + 1) % 65536 ≥ m.height then { m with cursor := .CommandLine x }
          else { m with cursor := .OutputBuffer x ((y + 1) % 65536) }), none) := rfl

lemma applyMessage_up :
    applyMessage sd m .Up =
      some ((match m.cursor with
        | .CommandLine x => { m with cursor := .OutputBuffer x (m.height - 1) }
        | .OutputBuffer x y => { m with cursor := .OutputBuffer x (y - 1) }), none) := rfl

lemma applyMessage_left :
    applyMessage sd m .Left = some ({ m with cursor := m.cursor.left }, none) := rfl

lemma applyMessage_right :
    applyMessage sd m .Right =
      (rightMax m).map
        (fun mx => ({ m with cursor := m.cursor.right_capped (mx % 65536) }, none)) := rfl

lemma applyMessage_submit :
    applyMessage sd m .Submit =
      some ((let m1 :=
          match run sd m.current_command with
          | some (some s) =>
            let o : Output :=
              { command := m.current_command
                stdout := s
                scroll := ((rustLines s).length % 65536 - m.height, 0) }
            let outs := m.outputs ++ [o]
            { m with outputs := outs, viewing_output := outs.length - 1 }
          | _ => m
        { m1 with
          previous_commands := m1.previous_commands ++ [m1.current_command]
          viewing_command := none
          current_command := []
          cursor := .CommandLine 0 }), none) := rfl

lemma applyMessage_quit :
    applyMessage sd m .Quit = some ({ m with running_state := .Done }, none) := rfl

lemma applyMessage_nextOutput :
    applyMessage sd m .NextOutput =
      some ((if m.outputs = [] then { m with viewing_output := 0 }
        else { m with
               viewing_output := min (m.outputs.length - 1)
                 (min (m.viewing_output + 1) 18446744073709551615) }), none) := rfl

lemma applyMessage_previousOutput :
    applyMessage sd m .PreviousOutput =
      some ((if m.outputs = [] then { m with viewing_output := 0 }
        else { m with viewing_output := m.viewing_output - 1 }), none) := rfl

lemma applyMessage_writeChar (c : Char) :
    applyMessage sd m (.WriteCommandChar c) =
      (match m.cursor with
      | .CommandLine x =>
        if x ≤ m.current_command.length then
          some ({ m with
                  current_command := insertAt m.current_command x c
                  cursor := (Cursor.CommandLine x).right }, none)
        else none
      | .OutputBuffer _ _ => none) := rfl

lemma applyMessage_normal :
    applyMessage sd m .Normal = some ({ m with mode := .Normal }, none) := rfl

lemma applyMessage_insertBefore :
    applyMessage sd m .InsertBefore =
      some ({ m with
              mode := .Insert
              cursor := .CommandLine (min m.get_command_len m.cursor.xcol) }, none) := rfl

lemma applyMessage_insertAfter :
    applyMessage sd m .InsertAfter =
      some ({ m with
              mode := .Insert
              cursor := .CommandLine (min m.get_command_len ((m.cursor.xcol + 1) % 65536)) },
        none) := rfl

lemma applyMessage_backspace :
    applyMessage sd m .Backspace =
      some ({ m with
              cursor := m.cursor.left
              current_command := m.current_command.dropLast }, none) := rfl

lemma applyMessage_outCommand :
    applyMessage sd m .OutCommand =
      some ((match m.viewing_command with
        | some curr => { m with viewing_command := some (curr - 1) }
        | none =>
          if m.previous_commands = [] then m
          else { m with viewing_command := some (m.previous_commands.length - 1) }), none) := rfl

lemma applyMessage_inCommand :
    applyMessage sd m .InCommand =
      some ((match m.viewing_command with
        | some curr =>
          if curr ≥ m.previous_commands.length - 1 then { m with viewing_command := none }
          else { m with viewing_command := some (curr + 1) }
        | none => m), none) := rfl

lemma applyMessage_scrollDown :
    applyMessage sd m .ScrollDown =
      some ((match m.outputs.get? m.viewing_output with
        | some o =>
          { m with outputs :=
              m.outputs.set m.viewing_output { o with scroll := (min (o.scroll.1 + 10) 65535, o.scroll.2) } }
        | none => m), none) := rfl

lemma applyMessage_scrollUp :
    applyMessage sd m .ScrollUp =
      some ((match m.outputs.get? m.viewing_output with
        | some o =>
          { m with outputs :=
              m.outputs.set m.viewing_output { o with scroll := (o.scroll.1 - 10, o.scroll.2) } }
        | none => m), none) := rfl

lemma applyMessage_insertBeforeLine :
    applyMessage sd m .InsertBeforeLine =
      some ({ m with mode := .Insert, cursor := .CommandLine 0 }, none) := rfl

lemma applyMessage_insertAfterLine :
    applyMessage sd m .InsertAfterLine =
      some ({ m with mode := .Insert, cursor := .CommandLine m.get_command_len }, none) := rfl

end ApplyMessageEquations

/-- C1: the claim says Backspace moves the cursor left and removes the
character at the new column (here column 0 of `ab`, i.e. `a`, leaving `b`).
The source instead pops the last character: from `ab` with cursor at
column 1, the result buffer is `a`, not the claim's `b` — characters after
the cursor are affected. -/
theorem c1_backspace_pops_last_instead_of_cursor_char :
    (update sd0 c1model .Backspace).map (fun r => (r.1.current_command, r.1.cursor)) =
      some ((['a'] : List Char), Cursor.CommandLine 0) ∧
    List.eraseIdx ['a', 'b'] 0 = ['b'] ∧
    (['a'] : List Char) ≠ ['b'] := by
  refine ⟨rfl, rfl, by decide⟩

/-- C2: the claim says a missing line at the cursor's row is treated as
remaining length 0 and `Right` returns normally. On a state viewing an
output whose text has no line at row 0, the source's `.unwrap()` panics:
the embedded reducer returns `none`. -/
theorem c2_right_panics_on_missing_line :
    update sd0 c2model .Right = none := rfl

/-- C3: the claim says `right_capped(max)` leaves the x column at most
`max` for both cursor variants. For the `OutputPane` variant the source
ignores `max`: from `OutputPane(5, 0)` with `max = 3` the column becomes
6 > 3. -/
theorem c3_right_capped_ignores_max_on_output_pane :
    (Cursor.OutputBuffer 5 0).right_capped 3 = Cursor.OutputBuffer 6 0 ∧
    ¬ ((Cursor.OutputBuffer 5 0).right_capped 3).xcol ≤ 3 := by
  refine ⟨rfl, by decide⟩

/-- C5: for a state with an active history peek at a valid index `i`, any
buffer-editing intent's pre-step overwrites the live buffer with
`previous_commands[i]` and clears the peek, before the intent's own arm
(which `update` applies to the pre-stepped state) runs. -/
theorem c5_editing_materializes_peek (m : Model) (msg : Message) (i : Nat)
    (he : msg.is_editing_command = true)
    (hv : m.viewing_command = some i)
    (hi : i < m.previous_commands.length) :
    m.previous_commands.get? i = some ((preStep m msg).current_command) ∧
    (preStep m msg).viewing_command = none := by
  refine ⟨?_, preStep_vc_editing m msg he⟩
  have h1 : (preStep m msg).current_command = (m.previous_commands.get? i).getD [] := by
    rw [preStep_cc_editing m msg he]
    unfold submittedCommand
    rw [hv]
  rw [h1, List.get?_eq_get hi]
  rfl

/-- Witness for C5 at a concrete peeking state and the Backspace intent. -/
theorem c5_witness :
    c5model.previous_commands.get? 0 = some ((preStep c5model .Backspace).current_command) ∧
    (preStep c5model .Backspace).viewing_command = none :=
  c5_editing_materializes_peek c5model .Backspace 0 rfl rfl (by decide)

/-- C9: if the peek sits at the newest history entry, `HistoryNewer`
(InCommand) clears it to `None`; and with no active peek, `HistoryNewer`
leaves the whole state unchanged (so repeating it past the newest entry
keeps `viewing_command = None`). -/
theorem c9_history_newer_idempotent_at_end (sd : SpawnOracle) (m : Model) :
    (∀ i, m.viewing_command = some i → m.previous_commands ≠ [] →
      i = m.previous_commands.length - 1 →
      (update sd m .InCommand).map (fun r => r.1.viewing_command) = some none) ∧
    (m.viewing_command = none → update sd m .InCommand = some (m, none)) := by
  constructor
  · intro i hv _ hi
    subst hi
    rw [update_eq, preStep_not_editing m .InCommand rfl, applyMessage_inCommand, hv]
    dsimp only
    rw [if_pos (Nat.le_refl _)]
    rfl
  · intro hv
    rw [update_eq, preStep_not_editing m .InCommand rfl, applyMessage_inCommand, hv]

/-- Witness for C9: peeking at the only entry, InCommand clears the peek;
with no peek, InCommand is the identity. -/
theorem c9_witness :
    ((update sd0 c9model .InCommand).map (fun r => r.1.viewing_command) = some none) ∧
    (update sd0 initModel .InCommand = some (initModel, none)) :=
  ⟨(c9_history_newer_idempotent_at_end sd0 c9model).1 0 rfl (by decide) rfl,
   (c9_history_newer_idempotent_at_end sd0 initModel).2 rfl⟩

/-- C10: the reducer never chains a follow-up intent: whenever `update`
returns normally, the returned follow-up message is `None`, so the main
loop's cascade branch runs the reducer exactly once per key event. -/
theorem c10_update_returns_no_message (sd : SpawnOracle) (m : Model)
    (msg : Message) (m' : Model) (nxt : Option Message)
    (h : update sd m msg = some (m', nxt)) : nxt = none := by
  unfold update applyMessage at h
  cases msg <;> dsimp only at h <;>
    repeat' split at h
  all_goals
    first
    | exact Option.noConfusion h
    | (rw [Option.some.injEq, Prod.mk.injEq] at h
       exact h.2.symm)
    | (rw [Option.map_eq_some'] at h
       obtain ⟨a, ha1, ha2⟩ := h
       try dsimp only at ha2
       rw [Prod.mk.injEq] at ha2
       exact ha2.2.symm)

/-- Witness for C10 at the Quit intent from the initial state. -/
theorem c10_witness :
    update sd0 initModel .Quit = some ({ initModel with running_state := .Done }, none) ∧
    (none : Option Message) = none :=
  ⟨rfl, c10_update_returns_no_message sd0 initModel .Quit
    { initModel with running_state := .Done } none rfl⟩

lemma set_viewing_output_self (m : Model) (h : m.viewing_output = 0) :
    { m with viewing_output := 0 } = m := by
  rw [← h]

/-- C8: from a state satisfying the viewing_output invariant, NextOutput
and PreviousOutput keep `viewing_output` within `[0, outputs.len() - 1]`
when outputs is non-empty, do not wrap at either boundary (NextOutput at
the last index and PreviousOutput at 0 are no-ops on the index, the former
under the usize bound on the list length), and leave the state entirely
unchanged when outputs is empty. -/
theorem c8_output_navigation_clamped (sd : SpawnOracle) (m : Model)
    (h0 : m.outputs = [] → m.viewing_output = 0)
    (h1 : m.outputs ≠ [] → m.viewing_output < m.outputs.length) :
    (∃ mn, update sd m .NextOutput = some (mn, none) ∧ mn.outputs = m.outputs ∧
      (m.outputs ≠ [] → mn.viewing_output < m.outputs.length) ∧
      (m.outputs.length ≤ 18446744073709551615 →
        m.viewing_output = m.outputs.length - 1 → mn.viewing_output = m.viewing_output) ∧
      (m.outputs = [] → mn = m)) ∧
    (∃ mp, update sd m .PreviousOutput = some (mp, none) ∧ mp.outputs = m.outputs ∧
      (m.outputs ≠ [] → mp.viewing_output < m.outputs.length) ∧
      (m.viewing_output = 0 → mp.viewing_output = 0) ∧
      (m.outputs = [] → mp = m)) := by
  constructor
  · rw [update_eq, preStep_not_editing m .NextOutput rfl, applyMessage_nextOutput]
    by_cases he : m.outputs = []
    · rw [if_pos he]
      refine ⟨{ m with viewing_output := 0 }, rfl, rfl, fun hne => absurd he hne, ?_, ?_⟩
      · intro _ hv
        simp only [he, List.length_nil] at hv ⊢
        omega
      · intro _
        exact set_viewing_output_self m (h0 he)
    · rw [if_neg he]
      have hlen : 0 < m.outputs.length := List.length_pos.mpr he
      refine ⟨_, rfl, rfl, ?_, ?_, fun hse => absurd hse he⟩
      · intro _
        simp only
        omega
      · intro hb hv
        simp only
        omega
  · rw [update_eq, preStep_not_editing m .PreviousOutput rfl, applyMessage_previousOutput]
    by_cases he : m.outputs = []
    · rw [if_pos he]
      refine ⟨{ m with viewing_output := 0 }, rfl, rfl, fun hne => absurd he hne, ?_, ?_⟩
      · intro _
        rfl
      · intro _
        exact set_viewing_output_self m (h0 he)
    · rw [if_neg he]
      have hlen : 0 < m.outputs.length := List.length_pos.mpr he
      have hv := h1 he
      refine ⟨_, rfl, rfl, ?_, ?_, fun hse => absurd hse he⟩
      · intro _
        simp only
        omega
      · intro hz
        simp only
        omega

/-- Witness for C8 at the initial state (no outputs): both intents leave
the state unchanged. -/
theorem c8_witness :
    update sd0 initModel .NextOutput = some (initModel, none) ∧
    update sd0 initModel .PreviousOutput = some (initModel, none) := by
  obtain ⟨⟨mn, hn, -, -, -, hne⟩, ⟨mp, hp, -, -, -, hpe⟩⟩ :=
    c8_output_navigation_clamped sd0 initModel (fun _ => rfl) (fun h => absurd rfl h)
  rw [hne rfl] at hn
  rw [hpe rfl] at hp
  exact ⟨hn, hp⟩

/-- C4: Submit always returns normally; it appends exactly the submitted
command text (the pre-step's materialization of the displayed command) to
`previous_commands`; it appends an output entry — titled by that text,
holding the decoded stdout, with the tail-visible initial scroll — exactly
when the executor run succeeds and its captured bytes decode as text, and
then `viewing_output` becomes the new last index; afterwards the live
buffer is empty, the peek is cleared, and the cursor is `CommandLine(0)`. -/
theorem c4_submit_effects (sd : SpawnOracle) (m : Model) :
    (update sd m .Submit).map (fun r => r.1.previous_commands) =
      some (m.previous_commands ++ [submittedCommand m]) ∧
    (update sd m .Submit).map (fun r => r.1.outputs) =
      some (match run sd (submittedCommand m) with
        | some (some s) =>
          m.outputs ++ [{ command := submittedCommand m
                          stdout := s
                          scroll := ((rustLines s).length % 65536 - m.height, 0) }]
        | _ => m.outputs) ∧
    (update sd m .Submit).map (fun r => r.1.viewing_output) =
      some (match run sd (submittedCommand m) with
        | some (some _) => m.outputs.length
        | _ => m.viewing_output) ∧
    (update sd m .Submit).map (fun r => r.1.current_command) = some [] ∧
    (update sd m .Submit).map (fun r => r.1.viewing_command) = some none ∧
    (update sd m .Submit).map (fun r => r.1.cursor) = some (Cursor.CommandLine 0) := by
  have hcc : (preStep m .Submit).current_command = submittedCommand m :=
    preStep_cc_editing m .Submit rfl
  rw [update_eq, applyMessage_submit, hcc]
  rcases hr : run sd (submittedCommand m) with _ | (_ | s) <;>
    simp [hr, hcc, preStep_previous_commands, preStep_outputs, preStep_viewing_output,
      preStep_height]

/-- Witness for C4: submitting the empty initial buffer with a failing
executor still appends one history entry. -/
theorem c4_witness :
    (update sd0 initModel .Submit).map (fun r => r.1.previous_commands) =
      some (initModel.previous_commands ++ [submittedCommand initModel]) :=
  (c4_submit_effects sd0 initModel).1

lemma invVC_preserved (sd : SpawnOracle) (m : Model) (msg : Message)
    (m' : Model) (nxt : Option Message)
    (hI : ∀ i, m.viewing_command = some i → i < m.previous_commands.length)
    (hu : update sd m msg = some (m', nxt)) :
    ∀ i, m'.viewing_command = some i → i < m'.previous_commands.length := by
  intro i hvi
  rw [update_eq] at hu
  cases msg
  case OutCommand =>
    rw [preStep_not_editing m .OutCommand rfl, applyMessage_outCommand] at hu
    rcases hvc : m.viewing_command with _ | curr <;> rw [hvc] at hu <;> dsimp only at hu
    · by_cases hpe : m.previous_commands = []
      · rw [if_pos hpe] at hu
        rw [Option.some.injEq, Prod.mk.injEq] at hu
        obtain ⟨h1, -⟩ := hu
        subst h1
        rw [hvc] at hvi
        exact Option.noConfusion hvi
      · rw [if_neg hpe] at hu
        rw [Option.some.injEq, Prod.mk.injEq] at hu
        obtain ⟨h1, -⟩ := hu
        subst h1
        dsimp only at hvi ⊢
        rw [Option.some.injEq] at hvi
        subst hvi
        have hlen := List.length_pos.mpr hpe
        omega
    · rw [Option.some.injEq, Prod.mk.injEq] at hu
      obtain ⟨h1, -⟩ := hu
      subst h1
      dsimp only at hvi ⊢
      rw [Option.some.injEq] at hvi
      subst hvi
      have hlt := hI curr hvc
      omega
  case InCommand =>
    rw [preStep_not_editing m .InCommand rfl, applyMessage_inCommand] at hu
    rcases hvc : m.viewing_command with _ | curr <;> rw [hvc] at hu <;> dsimp only at hu
    · rw [Option.some.injEq, Prod.mk.injEq] at hu
      obtain ⟨h1, -⟩ := hu
      subst h1
      rw [hvc] at hvi
      exact Option.noConfusion hvi
    · split at hu
      · rw [Option.some.injEq, Prod.mk.injEq] at hu
        obtain ⟨h1, -⟩ := hu
        subst h1
        dsimp only at hvi
        exact Option.noConfusion hvi
      · rw [Option.some.injEq, Prod.mk.injEq] at hu
        obtain ⟨h1, -⟩ := hu
        subst h1
        dsimp only at hvi ⊢
        rw [Option.some.injEq] at hvi
        subst hvi
        omega
  case WriteCommandChar c =>
    rw [preStep_editing m (.WriteCommandChar c) rfl, applyMessage_writeChar] at hu
    repeat' split at hu
    all_goals
      first
        | exact Option.noConfusion hu
        | (rw [Option.some.injEq, Prod.mk.injEq] at hu
           obtain ⟨h1, -⟩ := hu
           subst h1
           try dsimp only at hvi
           exact Option.noConfusion hvi)
  all_goals
    simp only [preStep_not_editing m .Down rfl, preStep_not_editing m .Up rfl,
      preStep_not_editing m .Quit rfl, preStep_not_editing m .NextOutput rfl,
      preStep_not_editing m .PreviousOutput rfl, preStep_not_editing m .Normal rfl,
      preStep_not_editing m .InsertBefore rfl, preStep_not_editing m .InsertAfter rfl,
      preStep_not_editing m .ScrollDown rfl, preStep_not_editing m .ScrollUp rfl,
      preStep_not_editing m .Left rfl, preStep_not_editing m .Right rfl,
      preStep_not_editing m .InsertBeforeLine rfl, preStep_not_editing m .InsertAfterLine rfl,
      preStep_editing m .Submit rfl, preStep_editing m .Backspace rfl] at hu
  all_goals
    simp only [applyMessage_down, applyMessage_up, applyMessage_left, applyMessage_right,
      applyMessage_submit, applyMessage_quit, applyMessage_nextOutput,
      applyMessage_previousOutput, applyMessage_normal,
      applyMessage_insertBefore, applyMessage_insertAfter, applyMessage_backspace,
      applyMessage_scrollDown, applyMessage_scrollUp,
      applyMessage_insertBeforeLine, applyMessage_insertAfterLine] at hu
  all_goals repeat' split at hu
  all_goals
    first
      | exact Option.noConfusion hu
      | (rw [Option.some.injEq, Prod.mk.injEq] at hu
         obtain ⟨h1, -⟩ := hu
         subst h1
         try dsimp only at hvi ⊢
         first
           | exact Option.noConfusion hvi
           | exact hI i hvi)
      | (rw [Option.map_eq_some'] at hu
         obtain ⟨a, hmx, hpair⟩ := hu
         try dsimp only at hpair
         rw [Prod.mk.injEq] at hpair
         obtain ⟨h1, -⟩ := hpair
         subst h1
         try dsimp only at hvi ⊢
         exact hI i hvi)

/-- C7: in every reachable state an active history peek index is in range,
and every intent preserves the in-range property from any state satisfying
it (`Submit` only appends to `previous_commands`, `OutCommand`/`InCommand`
saturate or clear). -/
theorem c7_viewing_command_in_range :
    (∀ m, Reachable m → ∀ i, m.viewing_command = some i → i < m.previous_commands.length) ∧
    (∀ (sd : SpawnOracle) (m : Model) (msg : Message) (m' : Model) (nxt : Option Message),
      (∀ i, m.viewing_command = some i → i < m.previous_commands.length) →
      update sd m msg = some (m', nxt) →
      ∀ i, m'.viewing_command = some i → i < m'.previous_commands.length) := by
  constructor
  · intro m hr
    induction hr with
    | init => intro i hvi; exact Option.noConfusion hvi
    | step h k msg sd hrm hk hu ih => exact invVC_preserved sd (setHeight _ h) msg _ _ ih hu
  · exact invVC_preserved

/-- The three-keystroke run Enter, Escape, Ctrl-O from the initial state
reaches `s3`, which peeks at history entry 0. -/
lemma reach_s3 : Reachable s3 := by
  have r1 : Reachable s1 :=
    Reachable.step 0 ⟨.Enter, false⟩ .Submit sd0 Reachable.init rfl rfl
  have r2 : Reachable s2 :=
    Reachable.step 0 ⟨.Esc, false⟩ .Normal sd0 r1 rfl rfl
  exact Reachable.step 0 ⟨.Char 'o', true⟩ .OutCommand sd0 r2 (by decide)
    (show update sd0 (setHeight s2 0) .OutCommand = some (s3, none) by decide)

/-- Witness for C7 at the reachable peeking state `s3`. -/
theorem c7_witness : 0 < s3.previous_commands.length :=
  c7_viewing_command_in_range.1 s3 reach_s3 0 rfl

lemma handle_key_up_normal (m : Model) (k : KeyEvent)
    (hk : handle_key m k = some .Up) : m.mode = .Normal := by
  cases hm : m.mode
  · exfalso
    unfold handle_key at hk
    rw [hm] at hk
    rcases k with ⟨code, ctrl⟩
    cases code <;> (try dsimp only at hk) <;> (try split at hk) <;> simp at hk
  · rfl

lemma ite_ne_some {p : Prop} [Decidable p] {α : Type} {a b : Option α} {v : α}
    (h : (if p then a else b) = some v) (ha : ¬ a = some v)
    (hb : b = some v → False) : False := by
  split at h
  · exact ha h
  · exact hb h

lemma handle_key_writeChar_insert (m : Model) (k : KeyEvent) (c : Char)
    (hk : handle_key m k = some (.WriteCommandChar c)) : m.mode = .Insert := by
  cases hm : m.mode
  · rfl
  · exfalso
    unfold handle_key at hk
    rw [hm] at hk
    rcases k with ⟨code, ctrl⟩
    cases code
    case Char cc =>
      refine ite_ne_some hk (by simp) (fun hk => ?_)
      refine ite_ne_some hk (by simp) (fun hk => ?_)
      refine ite_ne_some hk (by simp) (fun hk => ?_)
      refine ite_ne_some hk (by simp) (fun hk => ?_)
      refine ite_ne_some hk (by simp) (fun hk => ?_)
      refine ite_ne_some hk (by simp) (fun hk => ?_)
      refine ite_ne_some hk (by simp) (fun hk => ?_)
      refine ite_ne_some hk (by simp) (fun hk => ?_)
      refine ite_ne_some hk (by simp) (fun hk => ?_)
      refine ite_ne_some hk (by simp) (fun hk => ?_)
      refine ite_ne_some hk (by simp) (fun hk => ?_)
      refine ite_ne_some hk (by simp) (fun hk => ?_)
      refine ite_ne_some hk (by simp) (fun hk => ?_)
      refine ite_ne_some hk (by simp) (fun hk => ?_)
      exact Option.noConfusion hk
    all_goals exact Option.noConfusion hk

lemma invMC_preserved (sd : SpawnOracle) (m : Model) (msg : Message)
    (m' : Model) (nxt : Option Message)
    (hI : m.mode = .Insert → m.cursor.isCommandLine = true)
    (hUp : msg = .Up → m.mode = .Normal)
    (hu : update sd m msg = some (m', nxt)) :
    m'.mode = .Insert → m'.cursor.isCommandLine = true := by
  intro hm'
  rw [update_eq] at hu
  cases msg
  case Up =>
    have hn := hUp rfl
    rw [preStep_not_editing m .Up rfl, applyMessage_up] at hu
    repeat' split at hu
    all_goals (
      rw [Option.some.injEq, Prod.mk.injEq] at hu
      obtain ⟨h1, -⟩ := hu
      subst h1
      dsimp only at hm'
      rw [hn] at hm'
      exact Mode.noConfusion hm')
  case WriteCommandChar c =>
    rw [preStep_editing m (.WriteCommandChar c) rfl, applyMessage_writeChar] at hu
    repeat' split at hu
    all_goals
      first
        | exact Option.noConfusion hu
        | (rw [Option.some.injEq, Prod.mk.injEq] at hu
           obtain ⟨h1, -⟩ := hu
           subst h1
           rfl)
  all_goals
    simp only [preStep_not_editing m .Down rfl,
      preStep_not_editing m .Quit rfl, preStep_not_editing m .NextOutput rfl,
      preStep_not_editing m .PreviousOutput rfl, preStep_not_editing m .Normal rfl,
      preStep_not_editing m .InsertBefore rfl, preStep_not_editing m .InsertAfter rfl,
      preStep_not_editing m .ScrollDown rfl, preStep_not_editing m .ScrollUp rfl,
      preStep_not_editing m .Left rfl, preStep_not_editing m .Right rfl,
      preStep_not_editing m .OutCommand rfl, preStep_not_editing m .InCommand rfl,
      preStep_not_editing m .InsertBeforeLine rfl, preStep_not_editing m .InsertAfterLine rfl,
      preStep_editing m .Submit rfl, preStep_editing m .Backspace rfl] at hu
  all_goals
    simp only [applyMessage_down, applyMessage_left, applyMessage_right,
      applyMessage_submit, applyMessage_quit, applyMessage_nextOutput,
      applyMessage_previousOutput, applyMessage_normal,
      applyMessage_insertBefore, applyMessage_insertAfter, applyMessage_backspace,
      applyMessage_outCommand, applyMessage_inCommand,
      applyMessage_scrollDown, applyMessage_scrollUp,
      applyMessage_insertBeforeLine, applyMessage_insertAfterLine] at hu
  all_goals repeat' split at hu
  all_goals
    first
      | exact Option.noConfusion hu
      | (rw [Option.some.injEq, Prod.mk.injEq] at hu
         obtain ⟨h1, -⟩ := hu
         subst h1
         try dsimp only at hm' ⊢
         first
           | rfl
           | exact hI hm'
           | exact Mode.noConfusion hm'
           | (rw [isCommandLine_left]; exact hI hm')
           | simp_all [Cursor.isCommandLine])
      | (rw [Option.map_eq_some'] at hu
         obtain ⟨a, hmx, hpair⟩ := hu
         try dsimp only at hpair
         rw [Prod.mk.injEq] at hpair
         obtain ⟨h1, -⟩ := hpair
         subst h1
         try dsimp only at hm' ⊢
         rw [isCommandLine_right_capped]
         exact hI hm')

lemma invMC_reachable (m : Model) (hr : Reachable m) :
    m.mode = .Insert → m.cursor.isCommandLine = true := by
  induction hr with
  | init => intro _; rfl
  | step h k msg sd hrm hk hu ih =>
    refine invMC_preserved sd (setHeight _ h) msg _ _ ih ?_ hu
    intro hmsg
    subst hmsg
    exact handle_key_up_normal _ _ hk

/-- C6: in every state reachable from the initial state by dispatched
intents, Insert mode implies the cursor is the `CommandLine` variant;
consequently whenever the dispatcher emits `WriteCommandChar` (which it
does only in Insert mode) the cursor is `CommandLine`, so the
`WriteCommandChar` arm's fatal `OutputBuffer` branch cannot be taken. -/
theorem c6_insert_mode_cursor_on_command_line (m : Model) (hr : Reachable m) :
    (m.mode = .Insert → m.cursor.isCommandLine = true) ∧
    (∀ (k : KeyEvent) (c : Char), handle_key m k = some (.WriteCommandChar c) →
      m.cursor.isCommandLine = true) := by
  refine ⟨invMC_reachable m hr, ?_⟩
  intro k c hk
  exact invMC_reachable m hr (handle_key_writeChar_insert m k c hk)

/-- Witness for C6 at the initial state. -/
theorem c6_witness : initModel.cursor.isCommandLine = true :=
  (c6_insert_mode_cursor_on_command_line initModel Reachable.init).1 rfl

end Shim
